import Mathlib

/-!
# Verification of the ceremony / session security core of `capacitor-biometric-auth`

This file gives a shallow embedding, in Lean 4, of the browser-resident core of the
`capacitor-biometric-auth` repository:

* the Buffer Codec of `src/utils/webauthn.ts` (`toArrayBuffer`,
  `arrayBufferToBase64`, `arrayBufferToBase64URL`);
* the Ceremony Option Builder (`mergeCreateOptions`, `mergeGetOptions`);
* the Credential Reference Store (`storeCredentialId`, `getStoredCredentialIds`);
* the `SessionManager` and `CredentialManager` classes of the session utility module.

Modelling conventions:

* Byte buffers (`ArrayBuffer` / `Uint8Array`) are `List Nat` with every entry `< 256`.
* JavaScript strings are Lean `String`s; `btoa` / `atob` are implemented for real
  (they are total functions into `Option`, where `none` models a thrown
  `InvalidCharacterError`; `atob`'s whitespace stripping, which no verified input
  exercises, is not modelled).
* `crypto.subtle` availability is an explicit boolean parameter `subtle`; the random
  IV / challenge values consumed from `crypto.getRandomValues` are explicit parameters.
* AES-GCM is idealized symbolically (the standard authenticated-encryption model):
  a genuine envelope is a constructor holding the nonce and the plaintext, decryption
  authenticates exactly the genuine envelopes, and the byte content of a mangled
  envelope is pseudorandom, hence never a valid JSON serialization.  See `StoredEnv`.
* `JSON.stringify` / `JSON.parse` for the `SessionData` record are implemented as an
  executable serializer and parser for the exact serialized shape (the optional
  `metadata` field, which no verified property touches, is not modelled; tokens are
  restricted by `jsonSafe` to characters that `JSON.stringify` copies verbatim and
  `btoa` accepts).
-/

namespace BioAuth

/-! ## Base64, exactly as `btoa` / `atob` over Latin-1 code units -/

/-- The standard base64 alphabet, index `v` holding the digit of value `v`. -/
def b64alphabet : List Char :=
  "ABCDEFGHIJKLMNOPQRSTUVWXYZabcdefghijklmnopqrstuvwxyz0123456789+/".data

/-- Value `v` (expected `< 64`) to its base64 digit. -/
def encB64 (v : Nat) : Char := b64alphabet.getD v 'A'

/-- Base64 digit to its value; `none` for a character outside the alphabet. -/
def decB64 (c : Char) : Option Nat :=
  let i := b64alphabet.findIdx (fun d => d = c)
  if i < 64 then some i else none

/-- `btoa` over byte lists: big-endian packing of 3 bytes into 4 digits,
`=`-padded final group. -/
def b64encode : List Nat → List Char
  | [] => []
  | [a] => [encB64 (a / 4), encB64 (a % 4 * 16), '=', '=']
  | [a, b] => [encB64 (a / 4), encB64 (a % 4 * 16 + b / 16), encB64 (b % 16 * 4), '=']
  | a :: b :: c :: rest =>
      encB64 (a / 4) :: encB64 (a % 4 * 16 + b / 16) ::
      encB64 (b % 16 * 4 + c / 64) :: encB64 (c % 64) :: b64encode rest

/-- Decode a final base64 quad, honouring `=` padding (leftover bits are
discarded, as in the WHATWG forgiving-base64 decoder that `atob` implements). -/
def decodeQuad (c1 c2 c3 c4 : Char) : Option (List Nat) :=
  if c4 = '=' then
    if c3 = '=' then
      match decB64 c1, decB64 c2 with
      | some v1, some v2 => some [v1 * 4 + v2 / 16]
      | _, _ => none
    else
      match decB64 c1, decB64 c2, decB64 c3 with
      | some v1, some v2, some v3 => some [v1 * 4 + v2 / 16, v2 % 16 * 16 + v3 / 4]
      | _, _, _ => none
  else
    match decB64 c1, decB64 c2, decB64 c3, decB64 c4 with
    | some v1, some v2, some v3, some v4 =>
        some [v1 * 4 + v2 / 16, v2 % 16 * 16 + v3 / 4, v3 % 4 * 64 + v4]
    | _, _, _, _ => none

/-- `atob` over character lists: groups of four digits; `=` only in the final
group; a final group of two or three digits without padding is accepted
(forgiving base64); a leftover single character is an error. -/
def b64decode : List Char → Option (List Nat)
  | [] => some []
  | [_] => none
  | [c1, c2] => decodeQuad c1 c2 '=' '='
  | [c1, c2, c3] => decodeQuad c1 c2 c3 '='
  | [c1, c2, c3, c4] => decodeQuad c1 c2 c3 c4
  | c1 :: c2 :: c3 :: c4 :: e :: es =>
      match decB64 c1, decB64 c2, decB64 c3, decB64 c4, b64decode (e :: es) with
      | some v1, some v2, some v3, some v4, some bs =>
          some ((v1 * 4 + v2 / 16) :: (v2 % 16 * 16 + v3 / 4) :: ((v3 % 4 * 64 + v4) :: bs))
      | _, _, _, _, _ => none

/-- `btoa(s)`: `none` when some code unit exceeds 255 (JS throws). -/
def btoaStr (s : String) : Option String :=
  if s.data.all (fun ch => ch.toNat < 256) then
    some ⟨b64encode (s.data.map Char.toNat)⟩
  else none

/-- `atob(s)`: `none` models the thrown `InvalidCharacterError`. -/
def atobStr (s : String) : Option String :=
  (b64decode s.data).map (fun bs => ⟨bs.map Char.ofNat⟩)


/-! ## The Buffer Codec of `src/utils/webauthn.ts` -/

/-- The two global replacements of `arrayBufferToBase64URL` (plus to dash,
slash to underscore), fused into one character map (they do not interact). -/
def replUrl (c : Char) : Char := if c = '+' then '-' else if c = '/' then '_' else c

/-- The two global replacements of `toArrayBuffer`'s first stage (dash to
plus, underscore to slash). -/
def replStd (c : Char) : Char := if c = '-' then '+' else if c = '_' then '/' else c

/-- `s.padEnd(s.length + ((4 - (s.length % 4)) % 4), '=')`: pad with `=` to the
next multiple of four. -/
def padB64 (l : List Char) : List Char :=
  l ++ List.replicate ((4 - l.length % 4) % 4) '='

/-- UTF-8 encoding of one code point. -/
def utf8Char (n : Nat) : List Nat :=
  if n < 128 then [n]
  else if n < 2048 then [192 + n / 64, 128 + n % 64]
  else if n < 65536 then [224 + n / 4096, 128 + n / 64 % 64, 128 + n % 64]
  else [240 + n / 262144, 128 + n / 4096 % 64, 128 + n / 64 % 64, 128 + n % 64]

/-- `new TextEncoder().encode(s)`. -/
def textEncode (s : String) : List Nat :=
  (s.data.map (fun c => utf8Char c.toNat)).flatten

/-- The string branch of `toArrayBuffer` (`src/utils/webauthn.ts`, lines 24–51):
try URL-safe base64 with padding normalization, then plain base64, then raw
UTF-8 encoding. -/
def toArrayBufferStr (s : String) : List Nat :=
  match b64decode (padB64 (s.data.map replStd)) with
  | some bytes => bytes
  | none =>
    match b64decode s.data with
    | some bytes => bytes
    | none => textEncode s

/-- The input type of `toArrayBuffer`: `ArrayBuffer | Uint8Array | string`
(`undefined` is the surrounding `Option`). -/
inductive BufLike
  | arrayBuffer (bytes : List Nat)
  | uint8 (bytes : List Nat)
  | str (s : String)
deriving DecidableEq

/-- `toArrayBuffer` (lines 6–55).  `if (!data) return undefined` makes both
`undefined` and the empty string (falsy) yield `undefined`; buffer inputs pass
through; other strings go through the three-stage decode chain. -/
def toArrayBuffer : Option BufLike → Option (List Nat)
  | none => none
  | some (.arrayBuffer bytes) => some bytes
  | some (.uint8 bytes) => some bytes
  | some (.str s) => if s = "" then none else some (toArrayBufferStr s)

/-- `arrayBufferToBase64` (lines 60–67). -/
def arrayBufferToBase64 (buffer : List Nat) : String := ⟨b64encode buffer⟩

/-- `arrayBufferToBase64URL` (lines 72–79): standard base64, then the two
alphabet replacements, then stripping every `=`. -/
def arrayBufferToBase64URL (buffer : List Nat) : String :=
  ⟨((b64encode buffer).map replUrl).filter (fun c => c ≠ '=')⟩


/-! ## `SessionData` and its JSON serialization

The session module serializes `SessionData` with `JSON.stringify` and recovers
it with `JSON.parse`.  We implement the serializer and an executable parser for
the exact serialized shape.  The optional `metadata` field, which no verified
property touches, is not modelled; `jsonSafe` restricts tokens to characters
that `JSON.stringify` copies verbatim (no quote, no backslash, no control
characters) and that `btoa` accepts (code `< 256`). -/

/-- The `SessionData` interface of the session module (lines 3–7). -/
structure SessionData where
  token : String
  expiresAt : Int
deriving DecidableEq

/-- Characters serialized verbatim by `JSON.stringify` and accepted by `btoa`. -/
def jsonSafeChar (c : Char) : Bool :=
  c != '"' && c != '\\' && decide (32 ≤ c.toNat) && decide (c.toNat < 256)

def jsonSafe (s : String) : Bool := s.data.all jsonSafeChar

def digitChar (d : Nat) : Char := Char.ofNat (48 + d)

/-- Decimal digits, least significant first, with explicit fuel so that the
definition is structural (and hence kernel-reducible). -/
def natDigitsFuel : Nat → Nat → List Char
  | 0, _ => []
  | fuel + 1, n =>
      if n < 10 then [digitChar n]
      else digitChar (n % 10) :: natDigitsFuel fuel (n / 10)

/-- Decimal digits of `n`, least significant first (`n + 1` units of fuel
always suffice). -/
def natDigitsRev (n : Nat) : List Char := natDigitsFuel (n + 1) n

/-- Decimal digits of `n`, most significant first. -/
def natDigits (n : Nat) : List Char := (natDigitsRev n).reverse

/-- `JSON.stringify` of an integral JS number. -/
def intChars (i : Int) : List Char :=
  if i < 0 then '-' :: natDigits i.natAbs else natDigits i.natAbs

/-- The literal `{"token":"` opening the serialized record. -/
def sessOpenLit : List Char := "\x7b\"token\":\"".data

/-- The literal `,"expiresAt":` between the two fields (the quote closing the
token precedes it). -/
def sessMidLit : List Char := ",\"expiresAt\":".data

/-- `JSON.stringify({token, expiresAt})`. -/
def serializeSession (s : SessionData) : String :=
  ⟨sessOpenLit ++ s.token.data ++ '"' :: sessMidLit ++ intChars s.expiresAt ++ ['\x7d']⟩

/-- Consume an exact literal. -/
def dropLit : List Char → List Char → Option (List Char)
  | [], cs => some cs
  | _ :: _, [] => none
  | l :: ls, c :: cs => if c = l then dropLit ls cs else none

/-- Split at the first `"` (which is consumed); `none` when there is none. -/
def spanNotQuote : List Char → Option (List Char × List Char)
  | [] => none
  | c :: cs =>
      if c = '"' then some ([], cs)
      else (spanNotQuote cs).map (fun p => (c :: p.1, p.2))

/-- Accumulate decimal digits. -/
def readDigits : List Char → Nat → Nat × List Char
  | [], acc => (acc, [])
  | c :: cs, acc =>
      if c.isDigit then readDigits cs (acc * 10 + (c.toNat - 48)) else (acc, c :: cs)

/-- A nonempty run of decimal digits. -/
def parseNatPart : List Char → Option (Nat × List Char)
  | [] => none
  | c :: cs => if c.isDigit then some (readDigits cs (c.toNat - 48)) else none

/-- An optionally signed integer. -/
def parseIntPart : List Char → Option (Int × List Char)
  | [] => none
  | c :: cs' =>
      if c = '-' then (parseNatPart cs').map (fun p => (-(p.1 : Int), p.2))
      else (parseNatPart (c :: cs')).map (fun p => ((p.1 : Int), p.2))

/-- `JSON.parse` specialised to the serialized `SessionData` shape: it succeeds
exactly on the strings `serializeSession` produces. -/
def parseSession (s : String) : Option SessionData :=
  match dropLit sessOpenLit s.data with
  | none => none
  | some cs1 =>
    match spanNotQuote cs1 with
    | none => none
    | some (tok, cs2) =>
      match dropLit sessMidLit cs2 with
      | none => none
      | some cs3 =>
        match parseIntPart cs3 with
        | none => none
        | some (n, cs4) => if cs4 = ['\x7d'] then some ⟨⟨tok⟩, n⟩ else none

/-! ## The `SessionManager` (session utility module, lines 9–228)

The value held in `sessionStorage` under `biometric_auth_session` is modelled
symbolically.  AES-GCM (key derived by PBKDF2 from the fixed key string) is
idealized as authenticated encryption:

* `aead iv plain` is the envelope `btoa(iv ‖ AES-GCM(plain))` produced by
  `encrypt` when `crypto.subtle` is available — decryption with the derived key
  authenticates it and returns `plain`, and no attacker-assembled plain string
  is a genuine envelope;
* `aeadTampered iv plain pos eff` is such an envelope after a single-character
  modification at position `pos`.  Base64 is not injective at the final group's
  discarded padding bits (`b64_discarded_bits_collision` exhibits this with the
  file's own decoder), so the modification has one of three effects, recorded
  in `eff`: it leaves the decoded bytes unchanged (`sameBytes` — only possible
  inside those discarded bits — in which case the AEAD input is the genuine
  `iv ‖ ciphertext` and decryption *succeeds*); it changes the decoded bytes
  (`changedBytes` — authentication fails, and the raw bytes the `atob` fallback
  extracts are AES-GCM output bytes, modelled as never forming a valid JSON
  serialization, `gcmJunk`); or it takes the character outside the base64
  alphabet (`invalidB64` — both `atob` calls throw);
* `str s` is any other string stored in the slot (the base64 fallback of
  `encrypt`, or a value written directly to `sessionStorage`). -/

/-- The effect of a single-character modification of a base64 envelope on its
decoded byte content. -/
inductive TamperEffect
  | sameBytes
  | changedBytes
  | invalidB64
deriving DecidableEq

inductive StoredEnv
  | str (s : String)
  | aead (iv : List Nat) (plain : String)
  | aeadTampered (iv : List Nat) (plain : String) (pos : Nat) (eff : TamperEffect)
deriving DecidableEq

/-- The string `atob` recovers from a mangled AES-GCM envelope.  Idealization:
cipher output bytes are pseudorandom, so they never spell a valid JSON
serialization; we represent them by a fixed non-JSON string. -/
def gcmJunk (_iv : List Nat) (_plain : String) (_pos : Nat) : String :=
  ⟨[Char.ofNat 1]⟩

/-- `SessionManager.encrypt` (lines 114–168): AES-GCM with a fresh 96-bit IV
when `crypto.subtle` exists, otherwise plain `btoa` (whose failure on non-Latin-1
input propagates as `none`). -/
def sessionEncrypt (subtle : Bool) (iv : List Nat) (data : String) : Option StoredEnv :=
  if subtle then some (.aead iv data) else (btoaStr data).map .str

/-- `SessionManager.decrypt` (lines 173–227).  With `crypto.subtle`: any failure
of base64 decoding or of authenticated decryption falls back to
`return atob(encryptedData)`; without it, plain `atob`.  `none` models a thrown
exception (both `atob` calls failing).  A tampered envelope whose decoded bytes
are unchanged (`sameBytes`) presents the genuine `iv ‖ ciphertext` to AES-GCM,
so decryption succeeds exactly as for an untouched envelope. -/
def sessionDecrypt (subtle : Bool) : StoredEnv → Option String
  | .str s => atobStr s
  | .aead iv plain => if subtle then some plain else some (gcmJunk iv plain 0)
  | .aeadTampered iv plain pos eff =>
      match eff with
      | .sameBytes => if subtle then some plain else some (gcmJunk iv plain pos)
      | .changedBytes => some (gcmJunk iv plain pos)
      | .invalidB64 => none

/-- `SessionManager.storeSession` (lines 33–42) on the web path: the envelope
written to `sessionStorage` under the fixed session key. -/
def storeSession (subtle : Bool) (iv : List Nat) (session : SessionData) :
    Option StoredEnv :=
  sessionEncrypt subtle iv (serializeSession session)

/-- `SessionManager.getSession` (lines 47–74) on the web path, as a function of
the stored envelope and the current time: returns the result and the new
content of the session slot (`none` = removed by `clearSession`).  A decryption
or parse failure is caught, clears the slot and returns `null`; an expired
record is cleared and `null` returned. -/
def getSession (subtle : Bool) (stored : Option StoredEnv) (now : Int) :
    Option SessionData × Option StoredEnv :=
  match stored with
  | none => (none, none)
  | some env =>
    match (sessionDecrypt subtle env).bind parseSession with
    | none => (none, none)
    | some session =>
      if session.expiresAt < now then (none, none)
      else (some session, some env)

/-- `SessionManager.isSessionValid` (lines 91–94), with both `Date.now()`
readings taken at the same instant `now`. -/
def isSessionValid (subtle : Bool) (stored : Option StoredEnv) (now : Int) : Bool :=
  match (getSession subtle stored now).1 with
  | none => false
  | some session => decide (now < session.expiresAt)

/-! ## The `CredentialManager` (same module, lines 233–317)

`localStorage` is an association list from keys to stored values.  Arbitrary
serializable payloads are modelled as JSON strings: the payload is a `String`
and `JSON.stringify` of it is `jsonQuote`. -/

/-- Association-list update, as `localStorage.setItem`. -/
def setA {α : Type} : List (String × α) → String → α → List (String × α)
  | [], k, v => [(k, v)]
  | (k', v') :: st, k, v =>
      if k' = k then (k, v) :: st else (k', v') :: setA st k v

/-- Association-list lookup, as `localStorage.getItem`. -/
def getA {α : Type} : List (String × α) → String → Option α
  | [], _ => none
  | (k', v') :: st, k => if k' = k then some v' else getA st k

abbrev Storage := List (String × StoredEnv)

/-- The storage key of a credential blob (`CREDENTIAL` prefix + id). -/
def credKey (credentialId : String) : String :=
  "biometric_credential_" ++ credentialId

/-- `JSON.stringify` of a string payload. -/
def jsonQuote (s : String) : String := ⟨'"' :: (s.data ++ ['"'])⟩

/-- `JSON.parse` specialised to quoted strings: succeeds exactly on
`jsonQuote` images. -/
def parseJsonString (s : String) : Option String :=
  match s.data with
  | '"' :: cs =>
      match spanNotQuote cs with
      | some (t, []) => some ⟨t⟩
      | _ => none
  | _ => none

/-- `JSON.parse` applied to a raw stored value.  A genuine or mangled AES-GCM
envelope is a base64 string, not valid JSON (idealization as in `gcmJunk`). -/
def rawJsonString : StoredEnv → Option String
  | .str s => parseJsonString s
  | .aead _ _ => none
  | .aeadTampered _ _ _ _ => none

/-- `CredentialManager.storeCredential` (lines 239–253): encrypt only when
both requested and `crypto.subtle` is available, else store the plain JSON. -/
def storeCredential (subtle : Bool) (iv : List Nat) (st : Storage)
    (credentialId : String) (payload : String) (encrypt : Bool) : Option Storage :=
  let dataStr := jsonQuote payload
  if encrypt && subtle then
    (sessionEncrypt subtle iv dataStr).map (setA st (credKey credentialId))
  else
    some (setA st (credKey credentialId) (.str dataStr))

/-- `CredentialManager.getCredential` (lines 258–280): decrypt only when both
requested and `crypto.subtle` is available; any failure is caught and returns
`null`. -/
def getCredential (subtle : Bool) (st : Storage) (credentialId : String)
    (decrypt : Bool) : Option String :=
  match getA st (credKey credentialId) with
  | none => none
  | some stored =>
    if decrypt && subtle then
      match (sessionDecrypt subtle stored).bind parseJsonString with
      | some v => some v
      | none => none
    else
      match rawJsonString stored with
      | some v => some v
      | none => none

/-! ## The Credential Reference Store (`src/utils/webauthn.ts`, lines 213–252)

The per-scope index is stored in `localStorage` as a JSON string array; the
JSON round trip for string arrays is idealized as the identity, so the store
maps keys directly to string lists. -/

abbrev CredIdStore := List (String × List String)

/-- The storage key: `userId ? `…`_${userId}` : `…`_default`; an empty user id
is falsy in JS and selects the default bucket. -/
def credIdKey : Option String → String
  | some userId =>
      if userId = "" then "biometric_auth_cred_default"
      else "biometric_auth_cred_" ++ userId
  | none => "biometric_auth_cred_default"

/-- `getStoredCredentialIds` (lines 227–237): the stored list, or `[]` when
absent (the `catch` branch for malformed JSON is unreachable under the
identity-round-trip idealization). -/
def getStoredCredentialIds (st : CredIdStore) (userId : Option String) : List String :=
  match getA st (credIdKey userId) with
  | some l => l
  | none => []

/-- `storeCredentialId` (lines 213–222): append unless already present (in
which case the storage is left untouched). -/
def storeCredentialId (st : CredIdStore) (credentialId : String)
    (userId : Option String) : CredIdStore :=
  let existingCreds := getStoredCredentialIds st userId
  if credentialId ∈ existingCreds then st
  else setA st (credIdKey userId) (existingCreds ++ [credentialId])

/-! ## The Ceremony Option Builder (`src/utils/webauthn.ts`, lines 93–208)

The ambient `window.location.hostname` is the explicit parameter `host`; the
values drawn from `crypto.getRandomValues` (fresh challenge, fresh user id) are
explicit parameters.  Extension maps (`Record<string, any>`) are association
lists with opaque values modelled as `Nat`. -/

structure RpIn where
  id : Option String := none
  name : Option String := none
deriving DecidableEq

structure UserIn where
  id : Option BufLike := none
  name : Option String := none
  displayName : Option String := none
deriving DecidableEq

structure PubKeyCredParam where
  alg : Int
  type : String
deriving DecidableEq

structure AuthenticatorSelection where
  authenticatorAttachment : Option String := none
  requireResidentKey : Option Bool := none
  residentKey : Option String := none
  userVerification : Option String := none
deriving DecidableEq

/-- A credential descriptor as supplied by the caller or the defaults. -/
structure CredDescIn where
  id : BufLike
  type : String
  transports : Option (List String) := none
deriving DecidableEq

/-- A credential descriptor as built for the browser API: the id has been
passed through `toArrayBuffer` (the non-null assertion `!` of the source is a
type assertion only, so a failed conversion simply leaves `undefined`). -/
structure CredDescOut where
  id : Option (List Nat)
  type : String
  transports : Option (List String)
deriving DecidableEq

abbrev Extensions := List (String × Nat)

/-- `WebAuthnCreateOptions` (`src/definitions.ts`). -/
structure WebAuthnCreateOptions where
  challenge : Option BufLike := none
  rp : Option RpIn := none
  user : Option UserIn := none
  pubKeyCredParams : Option (List PubKeyCredParam) := none
  authenticatorSelection : Option AuthenticatorSelection := none
  timeout : Option Nat := none
  attestation : Option String := none
  attestationFormats : Option (List String) := none
  excludeCredentials : Option (List CredDescIn) := none
  extensions : Option Extensions := none
  hints : Option (List String) := none
deriving DecidableEq

/-- `defaults.rp` (`PublicKeyCredentialRpEntity`: `name` required). -/
structure RpDef where
  name : String
  id : Option String := none
deriving DecidableEq

/-- `defaults.user` (`PublicKeyCredentialUserEntity`; the id is typed as a
buffer but checked at runtime with `instanceof`, so we keep the full range). -/
structure UserDef where
  id : BufLike
  name : String
  displayName : String
deriving DecidableEq

/-- `Partial<PublicKeyCredentialCreationOptions>` restricted to the fields the
merge reads (plus `excludeCredentials` / `extensions`, which it could read but
does not). -/
structure CreateDefaults where
  rp : Option RpDef := none
  user : Option UserDef := none
  pubKeyCredParams : Option (List PubKeyCredParam) := none
  authenticatorSelection : Option AuthenticatorSelection := none
  timeout : Option Nat := none
  attestation : Option String := none
  excludeCredentials : Option (List CredDescIn) := none
  extensions : Option Extensions := none
deriving DecidableEq

/-- The fully populated `PublicKeyCredentialCreationOptions` built by
`mergeCreateOptions`, with `rp` / `user` flattened into named fields. -/
structure CreationOptionsOut where
  challenge : List Nat
  rpName : String
  rpId : String
  userId : List Nat
  userName : String
  userDisplayName : String
  pubKeyCredParams : List PubKeyCredParam
  timeout : Nat
  attestation : String
  authenticatorSelection : Option AuthenticatorSelection
  attestationFormats : Option (List String)
  excludeCredentials : Option (List CredDescOut)
  extensions : Option Extensions
  hints : Option (List String)
deriving DecidableEq

/-- `WebAuthnGetOptions` (`src/definitions.ts`). -/
structure WebAuthnGetOptions where
  challenge : Option BufLike := none
  rpId : Option String := none
  allowCredentials : Option (List CredDescIn) := none
  userVerification : Option String := none
  timeout : Option Nat := none
  extensions : Option Extensions := none
  hints : Option (List String) := none
deriving DecidableEq

/-- `Partial<PublicKeyCredentialRequestOptions>` restricted to the read fields. -/
structure GetDefaults where
  rpId : Option String := none
  allowCredentials : Option (List CredDescIn) := none
  userVerification : Option String := none
  timeout : Option Nat := none
  extensions : Option Extensions := none
deriving DecidableEq

/-- The `PublicKeyCredentialRequestOptions` built by `mergeGetOptions`. -/
structure RequestOptionsOut where
  challenge : List Nat
  timeout : Nat
  rpId : Option String
  allowCredentials : Option (List CredDescOut)
  userVerification : Option String
  extensions : Option Extensions
  hints : Option (List String)
deriving DecidableEq

/-- JS `a || b` at string type: the empty string is falsy. -/
def jsOrS : Option String → Option String → Option String
  | some s, b => if s = "" then b else some s
  | none, b => b

/-- JS `a || fb` with a final always-present string fallback. -/
def jsGetS : Option String → String → String
  | some s, fb => if s = "" then fb else s
  | none, fb => fb

/-- JS `a || b` at number type: `0` is falsy. -/
def jsOrN : Option Nat → Option Nat → Option Nat
  | some n, b => if n = 0 then b else some n
  | none, b => b

/-- JS `a || fb` with a final number fallback. -/
def jsGetN : Option Nat → Nat → Nat
  | some n, fb => if n = 0 then fb else n
  | none, fb => fb

/-- JS truthiness of an optional string. -/
def jsTruthyS : Option String → Bool
  | some s => s != ""
  | none => false

/-- The object spread `{...d, ...u}` on `authenticatorSelection`. -/
def authSelSpread (d u : Option AuthenticatorSelection) : AuthenticatorSelection :=
  { authenticatorAttachment :=
      (u.bind (·.authenticatorAttachment)) <|> (d.bind (·.authenticatorAttachment))
    requireResidentKey :=
      (u.bind (·.requireResidentKey)) <|> (d.bind (·.requireResidentKey))
    residentKey := (u.bind (·.residentKey)) <|> (d.bind (·.residentKey))
    userVerification := (u.bind (·.userVerification)) <|> (d.bind (·.userVerification)) }

/-- The object spread `{...d, ...u}` on extension maps: `d`'s keys first (with
`u`'s value on collision), then `u`'s new keys. -/
def spreadExt (d u : Extensions) : Extensions :=
  d.map (fun p => match getA u p.1 with | some v => (p.1, v) | none => p)
    ++ u.filter (fun p => (getA d p.1).isNone)

/-- The spread `{...cred, id: toArrayBuffer(cred.id)!}` of `mergeCreateOptions`. -/
def normDescCreate (cred : CredDescIn) : CredDescOut :=
  ⟨toArrayBuffer (some cred.id), cred.type, cred.transports⟩

/-- The descriptor rebuild of `mergeGetOptions` (fixed `'public-key'` type). -/
def normDescGet (cred : CredDescIn) : CredDescOut :=
  ⟨toArrayBuffer (some cred.id), "public-key", cred.transports⟩

/-- `mergeCreateOptions` (lines 93–159). -/
def mergeCreateOptions (host : String) (freshChallenge freshUserId : List Nat)
    (userOptions : Option WebAuthnCreateOptions) (defaults : Option CreateDefaults) :
    CreationOptionsOut :=
  { challenge := (toArrayBuffer (userOptions.bind (·.challenge))).getD freshChallenge
    rpName := jsGetS (jsOrS (userOptions.bind (fun u => u.rp.bind (·.name)))
      (defaults.bind (fun d => d.rp.map (·.name)))) host
    rpId := jsGetS (jsOrS (userOptions.bind (fun u => u.rp.bind (·.id)))
      (defaults.bind (fun d => d.rp.bind (·.id)))) host
    userId := ((toArrayBuffer (userOptions.bind (fun u => u.user.bind (·.id)))) <|>
      (match defaults.bind (fun d => d.user.map (·.id)) with
        | some (.arrayBuffer bytes) => toArrayBuffer (some (.arrayBuffer bytes))
        | some (.uint8 bytes) => toArrayBuffer (some (.uint8 bytes))
        | _ => none)).getD freshUserId
    userName := jsGetS (jsOrS (userOptions.bind (fun u => u.user.bind (·.name)))
      (defaults.bind (fun d => d.user.map (·.name)))) ("user@" ++ host)
    userDisplayName := jsGetS (jsOrS (userOptions.bind (fun u => u.user.bind (·.displayName)))
      (defaults.bind (fun d => d.user.map (·.displayName)))) "User"
    pubKeyCredParams := ((userOptions.bind (·.pubKeyCredParams)) <|>
      (defaults.bind (·.pubKeyCredParams))).getD
      [⟨-7, "public-key"⟩, ⟨-257, "public-key"⟩]
    timeout := jsGetN (jsOrN (userOptions.bind (·.timeout)) (defaults.bind (·.timeout))) 60000
    attestation := jsGetS (jsOrS (userOptions.bind (·.attestation))
      (defaults.bind (·.attestation))) "none"
    authenticatorSelection :=
      if (userOptions.bind (·.authenticatorSelection)).isSome
          || (defaults.bind (·.authenticatorSelection)).isSome then
        some (authSelSpread (defaults.bind (·.authenticatorSelection))
          (userOptions.bind (·.authenticatorSelection)))
      else none
    attestationFormats := userOptions.bind (·.attestationFormats)
    excludeCredentials := (userOptions.bind (·.excludeCredentials)).map
      (fun creds => creds.map normDescCreate)
    extensions := userOptions.bind (·.extensions)
    hints := userOptions.bind (·.hints) }

/-- `mergeGetOptions` (lines 164–208). -/
def mergeGetOptions (freshChallenge : List Nat)
    (userOptions : Option WebAuthnGetOptions) (defaults : Option GetDefaults) :
    RequestOptionsOut :=
  { challenge := (toArrayBuffer (userOptions.bind (·.challenge))).getD freshChallenge
    timeout := jsGetN (jsOrN (userOptions.bind (·.timeout)) (defaults.bind (·.timeout))) 60000
    rpId :=
      if jsTruthyS (jsOrS (userOptions.bind (·.rpId)) (defaults.bind (·.rpId))) then
        jsOrS (userOptions.bind (·.rpId)) (defaults.bind (·.rpId))
      else none
    allowCredentials :=
      if (userOptions.bind (·.allowCredentials)).isSome
          || (defaults.bind (·.allowCredentials)).isSome then
        some ((((userOptions.bind (·.allowCredentials)).getD []) ++
          ((defaults.bind (·.allowCredentials)).getD [])).map normDescGet)
      else none
    userVerification :=
      if jsTruthyS (jsOrS (userOptions.bind (·.userVerification))
          (defaults.bind (·.userVerification))) then
        jsOrS (userOptions.bind (·.userVerification)) (defaults.bind (·.userVerification))
      else none
    extensions :=
      if (userOptions.bind (·.extensions)).isSome
          || (defaults.bind (·.extensions)).isSome then
        some (spreadExt ((defaults.bind (·.extensions)).getD [])
          ((userOptions.bind (·.extensions)).getD []))
      else none
    hints := userOptions.bind (·.hints) }

/-! ## Concrete material for counterexamples -/

/-- The number of positions where two equal-length character lists differ. -/
def countDiff : List Char → List Char → Nat
  | a :: as, b :: bs => (if a = b then 0 else 1) + countDiff as bs
  | as, [] => as.length
  | [], bs => bs.length

/-- `btoa` of the serialization of the record with token `"a"`, expiry `99`. -/
def fbEnvOrig : String := "eyJ0b2tlbiI6ImEiLCJleHBpcmVzQXQiOjk5fQ=="

/-- `fbEnvOrig` with the single character at index 35 flipped from `5` to `4`:
its `atob` is the serialization of the record with expiry `98`. -/
def fbEnvFlip : String := "eyJ0b2tlbiI6ImEiLCJleHBpcmVzQXQiOjk4fQ=="

/-- `btoa` of the serialization of the record with token `"a"`, expiry `100`. -/
def fbEnvBoundary : String := "eyJ0b2tlbiI6ImEiLCJleHBpcmVzQXQiOjEwMH0="

/-! ## Codec lemmas -/

/-! ### Round-trip lemmas for the raw codec -/

theorem decB64_encB64 : ∀ v : Fin 64, decB64 (encB64 v.val) = some v.val := by decide

theorem encB64_ne_pad : ∀ v : Fin 64, encB64 v.val ≠ '=' := by decide

theorem decB64_encB64' (v : Nat) (h : v < 64) : decB64 (encB64 v) = some v :=
  decB64_encB64 ⟨v, h⟩

theorem encB64_ne_pad' (v : Nat) (h : v < 64) : encB64 v ≠ '=' :=
  encB64_ne_pad ⟨v, h⟩

theorem b64encode_ne_nil (x : Nat) (xs : List Nat) : b64encode (x :: xs) ≠ [] := by
  match xs with
  | [] => simp [b64encode]
  | [_] => simp [b64encode]
  | _ :: _ :: _ => simp [b64encode]

/-- Byte 1 of a decoded group is byte 1 of the encoded group. -/
theorem b64byte1 (a b : Nat) (_ha : a < 256) (hb : b < 256) :
    (a / 4) * 4 + (a % 4 * 16 + b / 16) / 16 = a := by
  have hb16 : b / 16 < 16 := by omega
  have e : (a % 4 * 16 + b / 16) / 16 = a % 4 := by
    rw [Nat.mul_comm, Nat.mul_add_div (by norm_num)]
    simp [Nat.div_eq_of_lt hb16]
  rw [e]; omega

/-- Byte 2 of a decoded group is byte 2 of the encoded group. -/
theorem b64byte2 (a b c : Nat) (hb : b < 256) (hc : c < 256) :
    (a % 4 * 16 + b / 16) % 16 * 16 + (b % 16 * 4 + c / 64) / 4 = b := by
  have hb16 : b / 16 < 16 := by omega
  have hc64 : c / 64 < 4 := by omega
  have e1 : (a % 4 * 16 + b / 16) % 16 = b / 16 := by
    rw [Nat.mul_comm, Nat.mul_add_mod]
    exact Nat.mod_eq_of_lt hb16
  have e2 : (b % 16 * 4 + c / 64) / 4 = b % 16 := by
    rw [Nat.mul_comm, Nat.mul_add_div (by norm_num)]
    simp [Nat.div_eq_of_lt hc64]
  rw [e1, e2]; omega

/-- Byte 3 of a decoded group is byte 3 of the encoded group. -/
theorem b64byte3 (b c : Nat) (hc : c < 256) :
    (b % 16 * 4 + c / 64) % 4 * 64 + c % 64 = c := by
  have hc64 : c / 64 < 4 := by omega
  have e : (b % 16 * 4 + c / 64) % 4 = c / 64 := by
    rw [Nat.mul_comm, Nat.mul_add_mod]
    exact Nat.mod_eq_of_lt hc64
  rw [e]; omega

theorem b64decode_b64encode (bs : List Nat) (h : ∀ x ∈ bs, x < 256) :
    b64decode (b64encode bs) = some bs := by
  match bs with
  | [] => rfl
  | [a] =>
      have ha : a < 256 := h a (by simp)
      have h1 : a / 4 < 64 := by omega
      have h2 : a % 4 * 16 < 64 := by omega
      show decodeQuad (encB64 (a / 4)) (encB64 (a % 4 * 16)) '=' '=' = some [a]
      simp only [decodeQuad, if_pos rfl, decB64_encB64' _ h1, decB64_encB64' _ h2]
      have e : a % 4 * 16 / 16 = a % 4 := Nat.mul_div_cancel _ (by norm_num)
      rw [e, show a / 4 * 4 + a % 4 = a by omega]
      simp
  | [a, b] =>
      have ha : a < 256 := h a (by simp)
      have hb : b < 256 := h b (by simp)
      have h1 : a / 4 < 64 := by omega
      have h2 : a % 4 * 16 + b / 16 < 64 := by omega
      have h3 : b % 16 * 4 < 64 := by omega
      show decodeQuad (encB64 (a / 4)) (encB64 (a % 4 * 16 + b / 16))
        (encB64 (b % 16 * 4)) '=' = some [a, b]
      simp only [decodeQuad, if_pos rfl, if_neg (encB64_ne_pad' _ h3),
        decB64_encB64' _ h1, decB64_encB64' _ h2, decB64_encB64' _ h3]
      rw [b64byte1 a b ha hb]
      have e1 : (a % 4 * 16 + b / 16) % 16 = b / 16 := by
        rw [Nat.mul_comm, Nat.mul_add_mod]
        exact Nat.mod_eq_of_lt (by omega)
      have e2 : b % 16 * 4 / 4 = b % 16 := Nat.mul_div_cancel _ (by norm_num)
      rw [e1, e2, show b / 16 * 16 + b % 16 = b by omega]
      simp
  | [a, b, c] =>
      have ha : a < 256 := h a (by simp)
      have hb : b < 256 := h b (by simp)
      have hc : c < 256 := h c (by simp)
      have h1 : a / 4 < 64 := by omega
      have h2 : a % 4 * 16 + b / 16 < 64 := by omega
      have h3 : b % 16 * 4 + c / 64 < 64 := by omega
      have h4 : c % 64 < 64 := by omega
      show decodeQuad (encB64 (a / 4)) (encB64 (a % 4 * 16 + b / 16))
        (encB64 (b % 16 * 4 + c / 64)) (encB64 (c % 64)) = some [a, b, c]
      simp only [decodeQuad, if_neg (encB64_ne_pad' _ h4), decB64_encB64' _ h1,
        decB64_encB64' _ h2, decB64_encB64' _ h3, decB64_encB64' _ h4]
      rw [b64byte1 a b ha hb, b64byte2 a b c hb hc, b64byte3 b c hc]
  | a :: b :: c :: r :: rs =>
      have ha : a < 256 := h a (by simp)
      have hb : b < 256 := h b (by simp)
      have hc : c < 256 := h c (by simp)
      have h1 : a / 4 < 64 := by omega
      have h2 : a % 4 * 16 + b / 16 < 64 := by omega
      have h3 : b % 16 * 4 + c / 64 < 64 := by omega
      have h4 : c % 64 < 64 := by omega
      have ih : b64decode (b64encode (r :: rs)) = some (r :: rs) :=
        b64decode_b64encode (r :: rs) (fun x hx => h x (by simp at hx ⊢; tauto))
      obtain ⟨e, es, hee⟩ := List.exists_cons_of_ne_nil (b64encode_ne_nil r rs)
      have henc : b64encode (a :: b :: c :: r :: rs)
          = encB64 (a / 4) :: encB64 (a % 4 * 16 + b / 16) ::
            encB64 (b % 16 * 4 + c / 64) :: encB64 (c % 64) :: b64encode (r :: rs) := rfl
      rw [henc, hee]
      have hd : ∀ x1 x2 x3 x4 : Char, b64decode (x1 :: x2 :: x3 :: x4 :: e :: es)
          = match decB64 x1, decB64 x2, decB64 x3, decB64 x4, b64decode (e :: es) with
            | some v1, some v2, some v3, some v4, some ds =>
                some ((v1 * 4 + v2 / 16) :: (v2 % 16 * 16 + v3 / 4) ::
                  ((v3 % 4 * 64 + v4) :: ds))
            | _, _, _, _, _ => none := fun _ _ _ _ => rfl
      rw [hd]
      simp only [decB64_encB64' _ h1, decB64_encB64' _ h2, decB64_encB64' _ h3,
        decB64_encB64' _ h4, ← hee, ih]
      rw [b64byte1 a b ha hb, b64byte2 a b c hb hc, b64byte3 b c hc]
termination_by bs.length
/-! ### The URL-safe round trip -/

theorem replRoundtrip : ∀ v : Fin 64,
    replStd (replUrl (encB64 v.val)) = encB64 v.val ∧ replUrl (encB64 v.val) ≠ '=' := by
  decide

/-- Every character of an encoding of bytes is `=` or a base64 digit. -/
theorem b64encode_chars (bs : List Nat) (h : ∀ x ∈ bs, x < 256) :
    ∀ c ∈ b64encode bs, c = '=' ∨ ∃ v, v < 64 ∧ c = encB64 v := by
  match bs with
  | [] => simp [b64encode]
  | [a] =>
      have ha : a < 256 := h a (by simp)
      intro c hc
      simp only [b64encode, List.mem_cons, List.not_mem_nil, or_false] at hc
      rcases hc with rfl | rfl | rfl | rfl
      · exact Or.inr ⟨a / 4, by omega, rfl⟩
      · exact Or.inr ⟨a % 4 * 16, by omega, rfl⟩
      · exact Or.inl rfl
      · exact Or.inl rfl
  | [a, b] =>
      have ha : a < 256 := h a (by simp)
      have hb : b < 256 := h b (by simp)
      intro c hc
      simp only [b64encode, List.mem_cons, List.not_mem_nil, or_false] at hc
      rcases hc with rfl | rfl | rfl | rfl
      · exact Or.inr ⟨a / 4, by omega, rfl⟩
      · exact Or.inr ⟨a % 4 * 16 + b / 16, by omega, rfl⟩
      · exact Or.inr ⟨b % 16 * 4, by omega, rfl⟩
      · exact Or.inl rfl
  | a :: b :: c' :: rest =>
      have ha : a < 256 := h a (by simp)
      have hb : b < 256 := h b (by simp)
      have hc' : c' < 256 := h c' (by simp)
      intro c hc
      rw [show b64encode (a :: b :: c' :: rest)
          = encB64 (a / 4) :: encB64 (a % 4 * 16 + b / 16) ::
            encB64 (b % 16 * 4 + c' / 64) :: encB64 (c' % 64) :: b64encode rest
          from rfl] at hc
      simp only [List.mem_cons] at hc
      rcases hc with rfl | rfl | rfl | rfl | hmem
      · exact Or.inr ⟨a / 4, by omega, rfl⟩
      · exact Or.inr ⟨a % 4 * 16 + b / 16, by omega, rfl⟩
      · exact Or.inr ⟨b % 16 * 4 + c' / 64, by omega, rfl⟩
      · exact Or.inr ⟨c' % 64, by omega, rfl⟩
      · exact b64encode_chars rest (fun x hx => h x (by simp [hx])) c hmem
termination_by bs.length

/-- Undoing the URL-alphabet replacement after stripping the padding gives
back the stripped standard encoding. -/
theorem replStd_replUrl_strip (l : List Char)
    (hl : ∀ c ∈ l, c = '=' ∨ ∃ v, v < 64 ∧ c = encB64 v) :
    ((l.map replUrl).filter (fun c => c ≠ '=')).map replStd
      = l.filter (fun c => c ≠ '=') := by
  induction l with
  | nil => rfl
  | cons c cs ih =>
      have hc := hl c (by simp)
      have ihcs := ih (fun d hd => hl d (by simp [hd]))
      rcases hc with rfl | ⟨v, hv, rfl⟩
      · simpa [replUrl] using ihcs
      · have h1 := (replRoundtrip ⟨v, hv⟩).1
        have h2 := (replRoundtrip ⟨v, hv⟩).2
        have h3 := encB64_ne_pad' v hv
        simp only [List.map_cons, List.filter_cons]
        rw [if_pos (by simpa using h2), if_pos (by simpa using h3)]
        simpa [h1] using ihcs

theorem padB64_cons4 (x1 x2 x3 x4 : Char) (l : List Char) :
    padB64 (x1 :: x2 :: x3 :: x4 :: l) = x1 :: x2 :: x3 :: x4 :: padB64 l := by
  have hlen : (4 - (l.length + 1 + 1 + 1 + 1) % 4) % 4 = (4 - l.length % 4) % 4 := by
    omega
  simp [padB64, hlen]

/-- Re-padding the stripped encoding restores the encoding. -/
theorem padB64_strip (bs : List Nat) (h : ∀ x ∈ bs, x < 256) :
    padB64 ((b64encode bs).filter (fun c => c ≠ '=')) = b64encode bs := by
  match bs with
  | [] => rfl
  | [a] =>
      have ha : a < 256 := h a (by simp)
      have h1 : a / 4 < 64 := by omega
      have h2 : a % 4 * 16 < 64 := by omega
      show padB64 (List.filter _ [encB64 (a / 4), encB64 (a % 4 * 16), '=', '=']) = _
      rw [show List.filter (fun c => decide (c ≠ '='))
            [encB64 (a / 4), encB64 (a % 4 * 16), '=', '=']
          = [encB64 (a / 4), encB64 (a % 4 * 16)] by
        simp [List.filter, encB64_ne_pad' _ h1, encB64_ne_pad' _ h2]]
      rfl
  | [a, b] =>
      have ha : a < 256 := h a (by simp)
      have hb : b < 256 := h b (by simp)
      have h1 : a / 4 < 64 := by omega
      have h2 : a % 4 * 16 + b / 16 < 64 := by omega
      have h3 : b % 16 * 4 < 64 := by omega
      show padB64 (List.filter _
        [encB64 (a / 4), encB64 (a % 4 * 16 + b / 16), encB64 (b % 16 * 4), '=']) = _
      rw [show List.filter (fun c => decide (c ≠ '='))
            [encB64 (a / 4), encB64 (a % 4 * 16 + b / 16), encB64 (b % 16 * 4), '=']
          = [encB64 (a / 4), encB64 (a % 4 * 16 + b / 16), encB64 (b % 16 * 4)] by
        simp [List.filter, encB64_ne_pad' _ h1, encB64_ne_pad' _ h2, encB64_ne_pad' _ h3]]
      rfl
  | a :: b :: c :: rest =>
      have ha : a < 256 := h a (by simp)
      have hb : b < 256 := h b (by simp)
      have hc : c < 256 := h c (by simp)
      have h1 : a / 4 < 64 := by omega
      have h2 : a % 4 * 16 + b / 16 < 64 := by omega
      have h3 : b % 16 * 4 + c / 64 < 64 := by omega
      have h4 : c % 64 < 64 := by omega
      have ih := padB64_strip rest (fun x hx => h x (by simp [hx]))
      rw [show b64encode (a :: b :: c :: rest)
          = encB64 (a / 4) :: encB64 (a % 4 * 16 + b / 16) ::
            encB64 (b % 16 * 4 + c / 64) :: encB64 (c % 64) :: b64encode rest
          from rfl]
      rw [show List.filter (fun c => decide (c ≠ '='))
            (encB64 (a / 4) :: encB64 (a % 4 * 16 + b / 16) ::
              encB64 (b % 16 * 4 + c / 64) :: encB64 (c % 64) :: b64encode rest)
          = encB64 (a / 4) :: encB64 (a % 4 * 16 + b / 16) ::
              encB64 (b % 16 * 4 + c / 64) :: encB64 (c % 64) ::
              (b64encode rest).filter (fun c => c ≠ '=') by
        simp [List.filter_cons, encB64_ne_pad' _ h1, encB64_ne_pad' _ h2,
          encB64_ne_pad' _ h3, encB64_ne_pad' _ h4]]
      rw [padB64_cons4, ih]
termination_by bs.length

/-- The first decoding stage of `toArrayBuffer` inverts `arrayBufferToBase64URL`. -/
theorem stage1_inverts_base64url (bs : List Nat) (h : ∀ x ∈ bs, x < 256) :
    b64decode (padB64 ((arrayBufferToBase64URL bs).data.map replStd)) = some bs := by
  show b64decode (padB64 ((((b64encode bs).map replUrl).filter
    (fun c => c ≠ '=')).map replStd)) = some bs
  rw [replStd_replUrl_strip _ (b64encode_chars bs h), padB64_strip bs h,
    b64decode_b64encode bs h]

/-- A successful `btoa` is inverted by `atob`. -/
theorem atobStr_btoaStr (p b : String) (h : btoaStr p = some b) : atobStr b = some p := by
  unfold btoaStr at h
  by_cases hall : p.data.all (fun ch => ch.toNat < 256)
  · rw [if_pos hall] at h
    obtain rfl : (⟨b64encode (p.data.map Char.toNat)⟩ : String) = b :=
      Option.some.inj h
    have hlt : ∀ x ∈ p.data.map Char.toNat, x < 256 := by
      intro x hx
      obtain ⟨c, hc, rfl⟩ := List.mem_map.1 hx
      simpa using (List.all_eq_true.1 hall) c hc
    unfold atobStr
    rw [show (⟨b64encode (p.data.map Char.toNat)⟩ : String).data
        = b64encode (p.data.map Char.toNat) from rfl]
    rw [b64decode_b64encode _ hlt]
    simp only [Option.map_some']
    congr 1
    rw [List.map_map]
    have : (Char.ofNat ∘ Char.toNat) = id := by
      funext c; exact Char.ofNat_toNat c
    rw [this, List.map_id]
  · rw [if_neg hall] at h
    exact Option.noConfusion h

/-! ## Decimal digits: printing then parsing is the identity -/

theorem digitChar_isDigit : ∀ d : Fin 10, (digitChar d.val).isDigit = true := by decide

theorem digitChar_val : ∀ d : Fin 10, (digitChar d.val).toNat - 48 = d.val := by decide

theorem digitChar_toNat_lt : ∀ d : Fin 10, (digitChar d.val).toNat < 256 := by decide

theorem digitChar_ne_dash : ∀ d : Fin 10, digitChar d.val ≠ '-' := by decide

theorem digitChar_ne_quote : ∀ d : Fin 10, digitChar d.val ≠ '"' := by decide

theorem natDigitsFuel_stable : ∀ f1 f2 n : Nat, n < f1 → n < f2 →
    natDigitsFuel f1 n = natDigitsFuel f2 n := by
  intro f1
  induction f1 with
  | zero => intro f2 n h1; omega
  | succ f1 ih =>
      intro f2 n h1 h2
      match f2, h2 with
      | f2 + 1, h2 =>
          show (if n < 10 then [digitChar n] else digitChar (n % 10) :: natDigitsFuel f1 (n / 10))
            = (if n < 10 then [digitChar n] else digitChar (n % 10) :: natDigitsFuel f2 (n / 10))
          by_cases hn : n < 10
          · simp [hn]
          · have hdiv : n / 10 < n := Nat.div_lt_self (by omega) (by norm_num)
            rw [if_neg hn, if_neg hn, ih f2 (n / 10) (by omega) (by omega)]

/-- The recursion equation of `natDigitsRev`, independent of fuel. -/
theorem natDigitsRev_eq (n : Nat) :
    natDigitsRev n = if n < 10 then [digitChar n]
      else digitChar (n % 10) :: natDigitsRev (n / 10) := by
  show natDigitsFuel (n + 1) n = _
  rw [show natDigitsFuel (n + 1) n
      = if n < 10 then [digitChar n] else digitChar (n % 10) :: natDigitsFuel n (n / 10)
      from rfl]
  by_cases hn : n < 10
  · simp [hn]
  · have hdiv : n / 10 < n := Nat.div_lt_self (by omega) (by norm_num)
    rw [if_neg hn, if_neg hn,
      natDigitsFuel_stable n (n / 10 + 1) (n / 10) (by omega) (by omega)]
    rfl

/-- Every printed digit is `digitChar d` for some `d < 10`. -/
theorem natDigitsRev_chars (n : Nat) :
    ∀ c ∈ natDigitsRev n, ∃ d, d < 10 ∧ c = digitChar d := by
  rw [natDigitsRev_eq]
  by_cases hn : n < 10
  · intro c hc
    rw [if_pos hn] at hc
    simp only [List.mem_singleton] at hc
    exact ⟨n, hn, hc⟩
  · intro c hc
    rw [if_neg hn] at hc
    simp only [List.mem_cons] at hc
    rcases hc with rfl | hc
    · exact ⟨n % 10, by omega, rfl⟩
    · have hdiv : n / 10 < n := Nat.div_lt_self (by omega) (by norm_num)
      exact natDigitsRev_chars (n / 10) c hc
termination_by n

theorem natDigits_chars (n : Nat) :
    ∀ c ∈ natDigits n, ∃ d, d < 10 ∧ c = digitChar d := by
  intro c hc
  exact natDigitsRev_chars n c (by simpa [natDigits] using hc)

theorem natDigits_ne_nil (n : Nat) : natDigits n ≠ [] := by
  unfold natDigits
  rw [natDigitsRev_eq]
  by_cases hn : n < 10 <;> simp [hn]

/-- Reading digits walks over any all-digit block, folding it into the
accumulator. -/
theorem readDigits_digits (ds : List Char) :
    ∀ (rest : List Char) (acc : Nat), (∀ c ∈ ds, c.isDigit = true) →
    readDigits (ds ++ rest) acc
      = readDigits rest (ds.foldl (fun a c => a * 10 + (c.toNat - 48)) acc) := by
  induction ds with
  | nil => intro rest acc _; rfl
  | cons c cs ih =>
      intro rest acc hds
      have hc : c.isDigit = true := hds c (by simp)
      show (if c.isDigit then readDigits (cs ++ rest) (acc * 10 + (c.toNat - 48))
        else (acc, c :: (cs ++ rest))) = _
      rw [if_pos hc, ih rest _ (fun d hd => hds d (by simp [hd]))]
      rfl

theorem readDigits_nondigit (rest : List Char) (acc : Nat)
    (h : rest = [] ∨ ∃ c cs, rest = c :: cs ∧ c.isDigit = false) :
    readDigits rest acc = (acc, rest) := by
  rcases h with rfl | ⟨c, cs, rfl, hc⟩
  · rfl
  · show (if c.isDigit then _ else (acc, c :: cs)) = _
    rw [if_neg (by simp [hc])]

/-- Folding the decimal digits of `n` onto `acc` computes
`acc * 10 ^ (number of digits) + n`. -/
theorem foldl_natDigits (n : Nat) : ∀ acc : Nat,
    (natDigits n).foldl (fun a c => a * 10 + (c.toNat - 48)) acc
      = acc * 10 ^ (natDigits n).length + n := by
  intro acc
  by_cases hn : n < 10
  · have h1 : natDigits n = [digitChar n] := by
      unfold natDigits; rw [natDigitsRev_eq, if_pos hn]; rfl
    rw [h1]
    simp only [List.foldl_cons, List.foldl_nil, List.length_singleton, pow_one]
    rw [digitChar_val ⟨n, hn⟩]
  · have hdiv : n / 10 < n := Nat.div_lt_self (by omega) (by norm_num)
    have h1 : natDigits n = natDigits (n / 10) ++ [digitChar (n % 10)] := by
      unfold natDigits
      rw [natDigitsRev_eq, if_neg hn, List.reverse_cons]
    rw [h1, List.foldl_append]
    rw [foldl_natDigits (n / 10) acc]
    simp only [List.foldl_cons, List.foldl_nil, List.length_append,
      List.length_singleton]
    rw [digitChar_val ⟨n % 10, by omega⟩]
    rw [pow_succ]
    ring_nf
    omega
termination_by n

/-- Parsing the printed digits of `n` followed by a non-digit rest returns `n`. -/
theorem parseNatPart_natDigits (n : Nat) (rest : List Char)
    (hrest : rest = [] ∨ ∃ c cs, rest = c :: cs ∧ c.isDigit = false) :
    parseNatPart (natDigits n ++ rest) = some (n, rest) := by
  obtain ⟨c, ds, hds⟩ := List.exists_cons_of_ne_nil (natDigits_ne_nil n)
  obtain ⟨d, hd, hcd⟩ := natDigits_chars n c (by simp [hds])
  have hcdig : c.isDigit = true := by rw [hcd]; exact digitChar_isDigit ⟨d, hd⟩
  have hall : ∀ x ∈ ds, x.isDigit = true := by
    intro x hx
    obtain ⟨d', hd', hx'⟩ := natDigits_chars n x (by simp [hds, hx])
    rw [hx']; exact digitChar_isDigit ⟨d', hd'⟩
  rw [hds]
  show (if c.isDigit then some (readDigits (ds ++ rest) (c.toNat - 48)) else none)
    = some (n, rest)
  rw [if_pos hcdig, readDigits_digits ds rest _ hall, readDigits_nondigit rest _ hrest]
  have hfold : ds.foldl (fun a c => a * 10 + (c.toNat - 48)) (c.toNat - 48)
      = (natDigits n).foldl (fun a c => a * 10 + (c.toNat - 48)) 0 := by
    rw [hds, List.foldl_cons]
    congr 1
    omega
  rw [hfold, foldl_natDigits n 0]
  simp

theorem parseIntPart_dash (cs : List Char) :
    parseIntPart ('-' :: cs) = (parseNatPart cs).map (fun p => (-(p.1 : Int), p.2)) := by
  show (if '-' = '-' then (parseNatPart cs).map (fun p => (-(p.1 : Int), p.2))
    else (parseNatPart ('-' :: cs)).map (fun p => ((p.1 : Int), p.2))) = _
  rw [if_pos rfl]

theorem parseIntPart_nodash (c : Char) (cs : List Char) (hc : ¬(c = '-')) :
    parseIntPart (c :: cs)
      = (parseNatPart (c :: cs)).map (fun p => ((p.1 : Int), p.2)) := by
  show (if c = '-' then (parseNatPart cs).map (fun p => (-(p.1 : Int), p.2))
    else (parseNatPart (c :: cs)).map (fun p => ((p.1 : Int), p.2))) = _
  rw [if_neg hc]

/-- Parsing the printed integer `i` followed by a non-digit, non-dash rest. -/
theorem parseIntPart_intChars (i : Int) (rest : List Char)
    (hrest : rest = [] ∨ ∃ c cs, rest = c :: cs ∧ c.isDigit = false) :
    parseIntPart (intChars i ++ rest) = some (i, rest) := by
  unfold intChars
  by_cases hi : i < 0
  · rw [if_pos hi]
    show parseIntPart ('-' :: (natDigits i.natAbs ++ rest)) = some (i, rest)
    rw [parseIntPart_dash, parseNatPart_natDigits i.natAbs rest hrest]
    simp only [Option.map_some', Option.some.injEq, Prod.mk.injEq, and_true]
    omega
  · rw [if_neg hi]
    obtain ⟨c, ds, hds⟩ := List.exists_cons_of_ne_nil (natDigits_ne_nil i.natAbs)
    obtain ⟨d, hd, hcd⟩ := natDigits_chars i.natAbs c (by simp [hds])
    have hcne : ¬(c = '-') := by rw [hcd]; exact digitChar_ne_dash ⟨d, hd⟩
    rw [hds]
    show parseIntPart (c :: (ds ++ rest)) = some (i, rest)
    rw [parseIntPart_nodash c _ hcne, show c :: (ds ++ rest) = (c :: ds) ++ rest from rfl,
      ← hds, parseNatPart_natDigits i.natAbs rest hrest]
    simp only [Option.map_some', Option.some.injEq, Prod.mk.injEq, and_true]
    omega

/-! ## The `SessionData` JSON round trip -/

theorem dropLit_self (lit : List Char) : ∀ rest : List Char,
    dropLit lit (lit ++ rest) = some rest := by
  induction lit with
  | nil => intro rest; rfl
  | cons l ls ih =>
      intro rest
      show (if l = l then dropLit ls (ls ++ rest) else none) = some rest
      rw [if_pos rfl, ih rest]

theorem spanNotQuote_append (tok : List Char) (rest : List Char)
    (htok : ∀ c ∈ tok, c ≠ '"') :
    spanNotQuote (tok ++ '"' :: rest) = some (tok, rest) := by
  induction tok with
  | nil =>
      show (if '"' = '"' then some ([], rest) else _) = _
      rw [if_pos rfl]
  | cons c cs ih =>
      have hc : ¬(c = '"') := htok c (by simp)
      show (if c = '"' then some ([], cs ++ '"' :: rest)
        else (spanNotQuote (cs ++ '"' :: rest)).map (fun p => (c :: p.1, p.2)))
        = some (c :: cs, rest)
      rw [if_neg hc, ih (fun d hd => htok d (by simp [hd]))]
      rfl

theorem parseSession_serializeSession (s : SessionData) (h : jsonSafe s.token = true) :
    parseSession (serializeSession s) = some s := by
  have hdata : (serializeSession s).data
      = sessOpenLit ++ (s.token.data ++ ('"' :: (sessMidLit
        ++ (intChars s.expiresAt ++ ['\x7d'])))) := by
    show sessOpenLit ++ s.token.data ++ '"' :: sessMidLit ++ intChars s.expiresAt
      ++ ['\x7d'] = _
    simp [List.append_assoc]
  have hq : ∀ c ∈ s.token.data, c ≠ '"' := by
    intro c hc
    have := (List.all_eq_true.1 h) c hc
    unfold jsonSafeChar at this
    intro hcq
    rw [hcq] at this
    simp at this
  unfold parseSession
  simp only [hdata, dropLit_self, spanNotQuote_append _ _ hq,
    parseIntPart_intChars s.expiresAt ['\x7d'] (Or.inr ⟨'\x7d', [], rfl, by decide⟩),
    if_pos rfl]
  rfl

/-- The serialization of a `jsonSafe` record consists of Latin-1 characters,
so `btoa` accepts it. -/
theorem serializeSession_latin1 (s : SessionData) (h : jsonSafe s.token = true) :
    (serializeSession s).data.all (fun ch => ch.toNat < 256) = true := by
  rw [List.all_eq_true]
  intro c hc
  have hc' : c ∈ sessOpenLit ∨ c ∈ s.token.data ∨ c = '"' ∨ c ∈ sessMidLit
      ∨ c ∈ intChars s.expiresAt ∨ c = '\x7d' := by
    have he : (serializeSession s).data
        = sessOpenLit ++ s.token.data ++ '"' :: sessMidLit ++ intChars s.expiresAt
          ++ ['\x7d'] := rfl
    rw [he] at hc
    simp only [List.mem_append, List.mem_cons, List.mem_singleton] at hc
    tauto
  have hgoal : c.toNat < 256 := by
    rcases hc' with hc' | hc' | rfl | hc' | hc' | rfl
    · exact (by decide : ∀ x ∈ sessOpenLit, x.toNat < 256) c hc'
    · have := (List.all_eq_true.1 h) c hc'
      unfold jsonSafeChar at this
      simp only [Bool.and_eq_true, decide_eq_true_eq] at this
      exact this.2
    · decide
    · exact (by decide : ∀ x ∈ sessMidLit, x.toNat < 256) c hc'
    · have hd10 : c = '-' ∨ ∃ d, d < 10 ∧ c = digitChar d := by
        revert hc'
        unfold intChars
        by_cases hi : s.expiresAt < 0
        · rw [if_pos hi]
          intro hx
          rcases List.mem_cons.1 hx with rfl | hx
          · exact Or.inl rfl
          · exact Or.inr (natDigits_chars _ c hx)
        · rw [if_neg hi]
          intro hx
          exact Or.inr (natDigits_chars _ c hx)
      rcases hd10 with rfl | ⟨d, hd, rfl⟩
      · decide
      · simpa using digitChar_toNat_lt ⟨d, hd⟩
    · decide
  simpa using hgoal

/-! ## Session Manager behaviour -/

/-- A stored session envelope decrypts and parses back to the record, in both
the AES-GCM and the base64-fallback modes. -/
theorem decrypt_storeSession (subtle : Bool) (iv : List Nat) (s : SessionData)
    (env : StoredEnv) (hsafe : jsonSafe s.token = true)
    (henv : storeSession subtle iv s = some env) :
    (sessionDecrypt subtle env).bind parseSession = some s := by
  cases subtle with
  | true =>
      have henv' : env = .aead iv (serializeSession s) := by
        have := henv.symm
        simpa [storeSession, sessionEncrypt] using this
      subst henv'
      simp [sessionDecrypt, parseSession_serializeSession s hsafe]
  | false =>
      obtain ⟨b, hb, henv'⟩ : ∃ b, btoaStr (serializeSession s) = some b ∧ env = .str b := by
        revert henv
        unfold storeSession sessionEncrypt
        cases hbt : btoaStr (serializeSession s) with
        | none => intro h; simp at h
        | some b =>
            intro h
            refine ⟨b, rfl, ?_⟩
            simpa using h.symm
      subst henv'
      simp [sessionDecrypt, atobStr_btoaStr _ _ hb, parseSession_serializeSession s hsafe]

/-- Persisting a `jsonSafe` record never fails. -/
theorem storeSession_isSome (subtle : Bool) (iv : List Nat) (s : SessionData)
    (hsafe : jsonSafe s.token = true) : ∃ env, storeSession subtle iv s = some env := by
  cases subtle with
  | true => exact ⟨.aead iv (serializeSession s), rfl⟩
  | false =>
      refine ⟨.str ⟨b64encode ((serializeSession s).data.map Char.toNat)⟩, ?_⟩
      unfold storeSession sessionEncrypt btoaStr
      rw [if_pos (serializeSession_latin1 s hsafe)]
      rfl

/-- **C1**: a session persisted with `expiresAt = now + d` is returned intact
(and the envelope kept) when read at `now + d − 1`, and at `now + d + 1` the
read returns "no session" and removes the envelope from the session slot in the
same call; a record is only ever returned while `expiresAt` has not passed. -/
theorem c1_session_expiry (subtle : Bool) (iv : List Nat) (s : SessionData)
    (now d : Int) (env : StoredEnv) (hsafe : jsonSafe s.token = true)
    (hexp : s.expiresAt = now + d) (henv : storeSession subtle iv s = some env) :
    getSession subtle (some env) (now + d - 1) = (some s, some env) ∧
    getSession subtle (some env) (now + d + 1) = (none, none) ∧
    (∀ t : Int, s.expiresAt < t → getSession subtle (some env) t = (none, none)) := by
  have hdp := decrypt_storeSession subtle iv s env hsafe henv
  refine ⟨?_, ?_, ?_⟩
  · simp only [getSession, hdp]
    rw [if_neg (by omega : ¬(s.expiresAt < now + d - 1))]
  · simp only [getSession, hdp]
    rw [if_pos (by omega : s.expiresAt < now + d + 1)]
  · intro t ht
    simp only [getSession, hdp]
    rw [if_pos ht]

theorem c1_session_expiry_witness :
    getSession true (some (.aead [0] (serializeSession ⟨"t", 110⟩))) (100 + 10 - 1)
      = (some ⟨"t", 110⟩, some (.aead [0] (serializeSession ⟨"t", 110⟩))) ∧
    getSession true (some (.aead [0] (serializeSession ⟨"t", 110⟩))) (100 + 10 + 1)
      = (none, none) :=
  ⟨(c1_session_expiry true [0] ⟨"t", 110⟩ 100 10 _ (by decide) (by decide) rfl).1,
   (c1_session_expiry true [0] ⟨"t", 110⟩ 100 10 _ (by decide) (by decide) rfl).2.1⟩

/-- **C2, counterexample**: with `crypto.subtle` unavailable the persisted
envelope for token `"a"`, expiry `99` is the base64 string `fbEnvOrig`;
flipping the single character at index 35 gives `fbEnvFlip`, and the next
`getSession` (at time 50) returns a *different, live-looking record* (expiry
`98`) derived from the corrupted envelope instead of "no session". -/
theorem c2_counterexample :
    storeSession false [] ⟨"a", 99⟩ = some (.str fbEnvOrig) ∧
    fbEnvOrig.length = fbEnvFlip.length ∧
    countDiff fbEnvOrig.data fbEnvFlip.data = 1 ∧
    getSession false (some (.str fbEnvFlip)) 50
      = (some ⟨"a", 98⟩, some (.str fbEnvFlip)) ∧
    (⟨"a", 98⟩ : SessionData) ≠ ⟨"a", 99⟩ :=
  ⟨by decide, by decide, by decide, by decide, by decide⟩

/-- Base64 is not injective at the final group's discarded padding bits: the
distinct strings `AQ==` and `AR==` decode to the same single byte.  This is the
reachable case in which a single-character envelope modification leaves the
AES-GCM input unchanged. -/
theorem b64_discarded_bits_collision :
    b64decode "AQ==".data = some [1] ∧ b64decode "AR==".data = some [1] ∧
    ("AQ==" : String) ≠ "AR==" :=
  ⟨by decide, by decide, by decide⟩

/-- **C2 (amended)**: with `crypto.subtle` available, a single-character
modification of an AES-GCM envelope that changes the base64-decoded bytes — or
breaks base64 decoding — makes the next `getSession` purge the slot and return
"no session" without throwing; but a modification confined to the discarded
padding bits of the final base64 group leaves the decoded bytes, hence the
AEAD input, unchanged, so decryption succeeds and `getSession` returns the
record and keeps the envelope — such a modification is not detected.  (The
original claim also fails in the base64 fallback mode, where a flipped byte can
yield a different valid record — see the counterexample — and
authenticated-decryption failure alone is not treated as absence — see C9.) -/
theorem c2_tamper_detection_aead (iv : List Nat) (plain : String) (pos : Nat)
    (now : Int) :
    getSession true (some (.aeadTampered iv plain pos .changedBytes)) now
      = (none, none) ∧
    getSession true (some (.aeadTampered iv plain pos .invalidB64)) now
      = (none, none) ∧
    (∀ s : SessionData, jsonSafe s.token = true → plain = serializeSession s →
      ¬(s.expiresAt < now) →
      getSession true (some (.aeadTampered iv plain pos .sameBytes)) now
        = (some s, some (.aeadTampered iv plain pos .sameBytes))) := by
  refine ⟨rfl, rfl, ?_⟩
  intro s hsafe hplain hnow
  subst hplain
  have hdec : sessionDecrypt true
      (.aeadTampered iv (serializeSession s) pos .sameBytes)
      = some (serializeSession s) := rfl
  simp only [getSession, hdec, Option.some_bind, parseSession_serializeSession s hsafe]
  rw [if_neg hnow]

theorem c2_tamper_detection_aead_witness :
    getSession true
        (some (.aeadTampered [0] (serializeSession ⟨"t", 110⟩) 35 .sameBytes)) 100
      = (some ⟨"t", 110⟩,
         some (.aeadTampered [0] (serializeSession ⟨"t", 110⟩) 35 .sameBytes)) :=
  (c2_tamper_detection_aead [0] (serializeSession ⟨"t", 110⟩) 35 100).2.2
    ⟨"t", 110⟩ (by decide) rfl (by decide)

/-- **C4, counterexample**: at the boundary instant `now = expiresAt = 100`,
`getSession` returns the record (non-null) while `isSessionValid` is `false`,
so `isValid()` differs from `current() != null`. -/
theorem c4_counterexample :
    storeSession false [] ⟨"a", 100⟩ = some (.str fbEnvBoundary) ∧
    getSession false (some (.str fbEnvBoundary)) 100
      = (some ⟨"a", 100⟩, some (.str fbEnvBoundary)) ∧
    isSessionValid false (some (.str fbEnvBoundary)) 100 = false :=
  ⟨by decide, by decide, by decide⟩

/-- **C4 (amended)**: `isValid()` is false whenever `current()` is null, and
when `current()` returns a record it equals the strict comparison
`now < expiresAt` — so the two agree except at the boundary instant
`now = expiresAt`, where `current()` is non-null but `isValid()` is false. -/
theorem c4_isValid_vs_getSession (subtle : Bool) (stored : Option StoredEnv) (now : Int) :
    ((getSession subtle stored now).1 = none → isSessionValid subtle stored now = false) ∧
    (∀ s, (getSession subtle stored now).1 = some s →
      isSessionValid subtle stored now = decide (now < s.expiresAt)) := by
  constructor
  · intro h
    unfold isSessionValid
    rw [h]
  · intro s h
    unfold isSessionValid
    rw [h]

theorem c4_isValid_vs_getSession_witness :
    isSessionValid true none 0 = false :=
  (c4_isValid_vs_getSession true none 0).1 rfl

/-- **C7**: with `crypto.subtle` available, encrypting the same plaintext under
two distinct random IVs yields two distinct envelopes, and each decrypts back
to the plaintext.  (Distinct IVs make the envelopes distinct because the IV is
prepended to the ciphertext in the envelope.) -/
theorem c7_encrypt_nondeterministic (iv1 iv2 : List Nat) (plain : String)
    (hne : iv1 ≠ iv2) :
    sessionEncrypt true iv1 plain ≠ sessionEncrypt true iv2 plain ∧
    (sessionEncrypt true iv1 plain).bind (sessionDecrypt true) = some plain ∧
    (sessionEncrypt true iv2 plain).bind (sessionDecrypt true) = some plain := by
  refine ⟨?_, rfl, rfl⟩
  intro h
  have h' : some (StoredEnv.aead iv1 plain) = some (StoredEnv.aead iv2 plain) := h
  exact hne (StoredEnv.aead.inj (Option.some.inj h')).1

theorem c7_encrypt_nondeterministic_witness :
    sessionEncrypt true [0] "p" ≠ sessionEncrypt true [1] "p" ∧
    (sessionEncrypt true [0] "p").bind (sessionDecrypt true) = some "p" ∧
    (sessionEncrypt true [1] "p").bind (sessionDecrypt true) = some "p" :=
  c7_encrypt_nondeterministic [0] [1] "p" (by decide)

/-- **C9**: the plain base64 encoding of a valid session JSON — a string no
`encrypt` call ever produces when `crypto.subtle` is available — is accepted by
`getSession` and returned as a live session, because a failed authenticated
decryption falls back to returning the base64-decoded bytes. -/
theorem c9_forged_envelope_accepted (s : SessionData) (now : Int) (env : String)
    (hsafe : jsonSafe s.token = true) (hnow : now ≤ s.expiresAt)
    (henv : btoaStr (serializeSession s) = some env) :
    (∀ iv plain, sessionEncrypt true iv plain ≠ some (.str env)) ∧
    getSession true (some (.str env)) now = (some s, some (.str env)) := by
  constructor
  · intro iv plain
    simp [sessionEncrypt]
  · have hdec : atobStr env = some (serializeSession s) := atobStr_btoaStr _ _ henv
    simp only [getSession, sessionDecrypt, hdec, Option.some_bind,
      parseSession_serializeSession s hsafe]
    rw [if_neg (by omega : ¬(s.expiresAt < now))]

theorem c9_forged_envelope_accepted_witness :
    getSession true (some (.str fbEnvOrig)) 50
      = (some ⟨"a", 99⟩, some (.str fbEnvOrig)) :=
  (c9_forged_envelope_accepted ⟨"a", 99⟩ 50 fbEnvOrig (by decide) (by decide)
    (by decide)).2

/-! ## Credential Blob Manager behaviour -/

theorem getA_setA_self {α : Type} (st : List (String × α)) (k : String) (v : α) :
    getA (setA st k v) k = some v := by
  induction st with
  | nil => simp [setA, getA]
  | cons p st ih =>
      obtain ⟨k', v'⟩ := p
      by_cases h : k' = k
      · simp [setA, getA, h]
      · simp [setA, getA, h, ih]

theorem parseJsonString_jsonQuote (p : String) (h : jsonSafe p = true) :
    parseJsonString (jsonQuote p) = some p := by
  have hq : ∀ c ∈ p.data, c ≠ '"' := by
    intro c hc hcq
    have := (List.all_eq_true.1 h) c hc
    rw [hcq] at this
    simp [jsonSafeChar] at this
  have hdata : (jsonQuote p).data = '"' :: (p.data ++ '"' :: []) := rfl
  unfold parseJsonString
  rw [hdata]
  simp only [spanNotQuote_append _ _ hq]

/-- **C10**: with `crypto.subtle` unavailable, `storeCredential` with
`encrypt = true` writes the payload's plain JSON serialization (raising no
error), and `getCredential` with `decrypt = true` recovers the payload; the
store-then-get round trip holds whether or not `crypto.subtle` is available. -/
theorem c10_credential_roundtrip (st : Storage) (iv : List Nat)
    (credentialId payload : String) (hsafe : jsonSafe payload = true) :
    storeCredential false iv st credentialId payload true
      = some (setA st (credKey credentialId) (.str (jsonQuote payload))) ∧
    (∀ subtle st', storeCredential subtle iv st credentialId payload true = some st' →
      getCredential subtle st' credentialId true = some payload) := by
  constructor
  · simp [storeCredential]
  · intro subtle st' hst
    cases subtle with
    | true =>
        have hst' : st' = setA st (credKey credentialId) (.aead iv (jsonQuote payload)) := by
          have := hst.symm
          simpa [storeCredential, sessionEncrypt] using this
        subst hst'
        simp [getCredential, getA_setA_self, sessionDecrypt,
          parseJsonString_jsonQuote payload hsafe]
    | false =>
        have hst' : st' = setA st (credKey credentialId) (.str (jsonQuote payload)) := by
          have := hst.symm
          simpa [storeCredential] using this
        subst hst'
        simp [getCredential, getA_setA_self, rawJsonString,
          parseJsonString_jsonQuote payload hsafe]

theorem c10_credential_roundtrip_witness :
    getCredential false [("biometric_credential_id1", .str (jsonQuote "pay"))] "id1" true
      = some "pay" := by
  have h := (c10_credential_roundtrip [] [] "id1" "pay" (by decide)).2 false
    (setA [] (credKey "id1") (.str (jsonQuote "pay"))) (by decide)
  simpa [setA, credKey] using h

/-! ## Credential Reference Store behaviour -/

/-- **C8**: storing an identifier already present leaves the store untouched;
storing the same identifier twice from an empty store yields an index of
length 1; insertion preserves duplicate-freedom; a new identifier is appended
at the end (insertion order). -/
theorem c8_idempotent_index (st : CredIdStore) (userId : Option String)
    (credentialId : String) :
    (credentialId ∈ getStoredCredentialIds st userId →
      storeCredentialId st credentialId userId = st) ∧
    (getStoredCredentialIds
        (storeCredentialId (storeCredentialId [] credentialId userId) credentialId userId)
        userId).length = 1 ∧
    ((getStoredCredentialIds st userId).Nodup →
      (getStoredCredentialIds (storeCredentialId st credentialId userId) userId).Nodup) ∧
    (credentialId ∉ getStoredCredentialIds st userId →
      getStoredCredentialIds (storeCredentialId st credentialId userId) userId
        = getStoredCredentialIds st userId ++ [credentialId]) := by
  have hmain : ∀ st' : CredIdStore, credentialId ∉ getStoredCredentialIds st' userId →
      getStoredCredentialIds (storeCredentialId st' credentialId userId) userId
        = getStoredCredentialIds st' userId ++ [credentialId] := by
    intro st' hnot
    unfold storeCredentialId
    rw [if_neg hnot]
    unfold getStoredCredentialIds
    rw [getA_setA_self]
  have hid : ∀ st' : CredIdStore, credentialId ∈ getStoredCredentialIds st' userId →
      storeCredentialId st' credentialId userId = st' := by
    intro st' hmem
    unfold storeCredentialId
    rw [if_pos hmem]
  refine ⟨hid st, ?_, ?_, hmain st⟩
  · have h0 : getStoredCredentialIds ([] : CredIdStore) userId = [] := rfl
    have h1 := hmain [] (by rw [h0]; exact List.not_mem_nil _)
    rw [h0] at h1
    have h2 := hid (storeCredentialId [] credentialId userId)
      (by rw [h1]; simp)
    rw [h2, h1]
    rfl
  · intro hnd
    by_cases hmem : credentialId ∈ getStoredCredentialIds st userId
    · rw [hid st hmem]
      exact hnd
    · rw [hmain st hmem]
      simp [List.nodup_append, hnd, hmem]

theorem c8_idempotent_index_witness :
    storeCredentialId [("biometric_auth_cred_default", ["c"])] "c" none
      = [("biometric_auth_cred_default", ["c"])] :=
  (c8_idempotent_index [("biometric_auth_cred_default", ["c"])] none "c").1 (by decide)

/-! ## Ceremony Option Builder behaviour -/

theorem getA_append {α : Type} (l1 l2 : List (String × α)) (k : String) :
    getA (l1 ++ l2) k = match getA l1 k with
      | some v => some v
      | none => getA l2 k := by
  induction l1 with
  | nil => rfl
  | cons p l1 ih =>
      obtain ⟨k', v'⟩ := p
      by_cases h : k' = k
      · simp [getA, h]
      · simp [getA, h, ih]

theorem getA_spread_map (d u : Extensions) (k : String) :
    getA (d.map (fun p => match getA u p.1 with | some v => (p.1, v) | none => p)) k
      = (getA d k).map (fun v => (getA u k).getD v) := by
  induction d with
  | nil => rfl
  | cons p d ih =>
      obtain ⟨k', v'⟩ := p
      by_cases h : k' = k
      · subst h
        cases hu : getA u k' <;> simp [getA, hu]
      · cases hu : getA u k' <;> simp [getA, h, ih, hu]

theorem getA_filter_none (d u : Extensions) (k : String) (hd : getA d k = none) :
    getA (u.filter (fun p => (getA d p.1).isNone)) k = getA u k := by
  induction u with
  | nil => rfl
  | cons p u ih =>
      obtain ⟨k', v'⟩ := p
      by_cases h : k' = k
      · subst h
        simp [List.filter_cons, hd, getA]
      · cases hp : (getA d k').isNone <;>
          simp [List.filter_cons, hp, getA, h, ih]

/-- Lookup in an object spread: the caller's entry wins on key collision and
the defaults' entries survive otherwise. -/
theorem getA_spreadExt (d u : Extensions) (k : String) :
    getA (spreadExt d u) k
      = match getA u k with | some v => some v | none => getA d k := by
  unfold spreadExt
  rw [getA_append, getA_spread_map]
  cases hd : getA d k with
  | some v => cases hu : getA u k <;> simp [hu]
  | none =>
      rw [getA_filter_none d u k hd]
      cases hu : getA u k <;> simp [hu]

theorem jsGetS_getD (b : Option String) (fb : String) (hb : b ≠ some "") :
    jsGetS b fb = b.getD fb := by
  cases b with
  | none => rfl
  | some s =>
      have hs : ¬(s = "") := fun h => hb (by rw [h])
      simp [jsGetS, hs]

theorem jsGetS_orElse (a b : Option String) (fb : String)
    (ha : a ≠ some "") (hb : b ≠ some "") :
    jsGetS (jsOrS a b) fb = (a.orElse (fun _ => b)).getD fb := by
  cases a with
  | some s =>
      have hs : ¬(s = "") := fun h => ha (by rw [h])
      simp [jsOrS, jsGetS, hs]
  | none =>
      show jsGetS b fb = b.getD fb
      exact jsGetS_getD b fb hb

theorem jsGetN_orElse (a b : Option Nat) (fb : Nat)
    (ha : a ≠ some 0) (hb : b ≠ some 0) :
    jsGetN (jsOrN a b) fb = (a.orElse (fun _ => b)).getD fb := by
  cases a with
  | some n =>
      have hn : ¬(n = 0) := fun h => ha (by rw [h])
      simp [jsOrN, jsGetN, hn]
  | none =>
      cases b with
      | none => rfl
      | some m =>
          have hm : ¬(m = 0) := fun h => hb (by rw [h])
          simp [jsOrN, jsGetN, hm]

/-- **C3, counterexample**: in `buildCreateOptions` the site defaults' list
entries are *dropped*, not unioned: with caller extensions `{a: 1}` and
defaults extensions `{b: 2}` plus a defaults exclusion entry, the built options
carry only `{a: 1}` and no exclusion list at all. -/
theorem c3_counterexample :
    (mergeCreateOptions "host" [1] [2]
        (some { extensions := some [("a", 1)] })
        (some { extensions := some [("b", 2)],
                excludeCredentials := some [⟨.str "id", "public-key", none⟩] })).extensions
      = some [("a", 1)] ∧
    (mergeCreateOptions "host" [1] [2]
        (some { extensions := some [("a", 1)] })
        (some { extensions := some [("b", 2)],
                excludeCredentials := some [⟨.str "id", "public-key", none⟩] })).excludeCredentials
      = none :=
  ⟨rfl, rfl⟩

/-- **C3 (amended)**: in `buildCreateOptions` the exclusion list and the
extension map come from the caller alone (the site defaults are ignored, so the
result is independent of them); in `buildGetOptions` the allow list is the
caller's entries followed by the defaults' entries (concatenation, no
deduplication) and the extension map is the object spread of the two, whose
lookup gives the caller's entry precedence on key collision. -/
theorem c3_list_merge (host : String) (fc fu : List Nat)
    (u : Option WebAuthnCreateOptions) (d d' : Option CreateDefaults)
    (ug : Option WebAuthnGetOptions) (dg : Option GetDefaults) :
    (mergeCreateOptions host fc fu u d).excludeCredentials
      = (mergeCreateOptions host fc fu u d').excludeCredentials ∧
    (mergeCreateOptions host fc fu u d).extensions
      = (mergeCreateOptions host fc fu u d').extensions ∧
    (∀ uc dc, ug.bind (·.allowCredentials) = some uc →
      dg.bind (·.allowCredentials) = some dc →
      (mergeGetOptions fc ug dg).allowCredentials
        = some ((uc ++ dc).map normDescGet)) ∧
    (∀ eu ed, ug.bind (·.extensions) = some eu → dg.bind (·.extensions) = some ed →
      (mergeGetOptions fc ug dg).extensions = some (spreadExt ed eu) ∧
      ∀ k, getA (spreadExt ed eu) k
        = match getA eu k with | some v => some v | none => getA ed k) := by
  refine ⟨rfl, rfl, ?_, ?_⟩
  · intro uc dc huc hdc
    simp [mergeGetOptions, huc, hdc]
  · intro eu ed heu hed
    refine ⟨by simp [mergeGetOptions, heu, hed], fun k => getA_spreadExt ed eu k⟩

theorem c3_list_merge_witness :
    (mergeGetOptions [1]
        (some { allowCredentials := some [⟨.str "u1", "public-key", none⟩],
                extensions := some [("a", 1)] })
        (some { allowCredentials := some [⟨.str "d1", "public-key", none⟩],
                extensions := some [("a", 9), ("b", 2)] })).allowCredentials
      = some (([⟨.str "u1", "public-key", none⟩,
          ⟨.str "d1", "public-key", none⟩] : List CredDescIn).map normDescGet) :=
  (c3_list_merge "h" [1] [2] none none none
    (some { allowCredentials := some [⟨.str "u1", "public-key", none⟩],
            extensions := some [("a", 1)] })
    (some { allowCredentials := some [⟨.str "d1", "public-key", none⟩],
            extensions := some [("a", 9), ("b", 2)] })).2.2.1
    [⟨.str "u1", "public-key", none⟩] [⟨.str "d1", "public-key", none⟩] rfl rfl

/-- **C5, counterexample**: an explicit caller value that is falsy in JS is not
honoured: a caller-supplied `timeout: 0` resolves to the built-in fallback
`60000`, not to the caller's explicit `0`. -/
theorem c5_counterexample :
    ({ timeout := some 0 } : WebAuthnCreateOptions).timeout = some 0 ∧
    (mergeCreateOptions "host" [1] [2] (some { timeout := some 0 }) none).timeout
      = 60000 :=
  ⟨rfl, rfl⟩

/-- **C5 (amended)**: the caller → site default → built-in fallback precedence
(relying-party id/name defaulting to the host, timeout to `60000`, attestation
to `"none"`, the algorithm list to the fixed ES256/RS256 pair) holds for every
field whenever the supplied values are truthy (non-empty strings, nonzero
timeout); a falsy explicit value is treated as absent (see the counterexample).
The spec's example holds: `rp.name = "X"` with `rp.id` left to the defaults. -/
theorem c5_field_precedence (host : String) (fc fu : List Nat)
    (u : WebAuthnCreateOptions) (d : CreateDefaults)
    (hun : u.rp.bind (·.name) ≠ some "") (hdn : d.rp.map (·.name) ≠ some "")
    (hui : u.rp.bind (·.id) ≠ some "") (hdi : d.rp.bind (·.id) ≠ some "")
    (hua : u.attestation ≠ some "") (hda : d.attestation ≠ some "")
    (hut : u.timeout ≠ some 0) (hdt : d.timeout ≠ some 0) :
    (mergeCreateOptions host fc fu (some u) (some d)).rpName
      = ((u.rp.bind (·.name)).orElse (fun _ => d.rp.map (·.name))).getD host ∧
    (mergeCreateOptions host fc fu (some u) (some d)).rpId
      = ((u.rp.bind (·.id)).orElse (fun _ => d.rp.bind (·.id))).getD host ∧
    (mergeCreateOptions host fc fu (some u) (some d)).timeout
      = ((u.timeout).orElse (fun _ => d.timeout)).getD 60000 ∧
    (mergeCreateOptions host fc fu (some u) (some d)).attestation
      = ((u.attestation).orElse (fun _ => d.attestation)).getD "none" ∧
    (mergeCreateOptions host fc fu (some u) (some d)).pubKeyCredParams
      = ((u.pubKeyCredParams).orElse (fun _ => d.pubKeyCredParams)).getD
          [⟨-7, "public-key"⟩, ⟨-257, "public-key"⟩] ∧
    (mergeCreateOptions host fc fu
        (some { rp := some { name := some "X" } }) (some d)).rpName = "X" ∧
    (mergeCreateOptions host fc fu
        (some { rp := some { name := some "X" } }) (some d)).rpId
      = (d.rp.bind (·.id)).getD host := by
  refine ⟨jsGetS_orElse _ _ host hun hdn, jsGetS_orElse _ _ host hui hdi,
    jsGetN_orElse _ _ 60000 hut hdt, jsGetS_orElse _ _ "none" hua hda, rfl, rfl, ?_⟩
  exact jsGetS_getD _ host hdi

theorem c5_field_precedence_witness :
    (mergeCreateOptions "h" [1] [2] (some {}) (some {})).timeout = 60000 :=
  (c5_field_precedence "h" [1] [2] {} {} (by decide) (by decide) (by decide)
    (by decide) (by decide) (by decide) (by decide) (by decide)).2.2.1

/-! ## Buffer Codec round trip (claim C6) -/

theorem arrayBufferToBase64URL_ne_empty (x : Nat) (xs : List Nat) (hx : x < 256) :
    arrayBufferToBase64URL (x :: xs) ≠ "" := by
  have hfirst : ∃ t, b64encode (x :: xs) = encB64 (x / 4) :: t := by
    match xs with
    | [] => exact ⟨_, rfl⟩
    | [_] => exact ⟨_, rfl⟩
    | _ :: _ :: _ => exact ⟨_, rfl⟩
  obtain ⟨t, ht⟩ := hfirst
  have h1 : x / 4 < 64 := by omega
  have hkeep : ¬(replUrl (encB64 (x / 4)) = '=') := (replRoundtrip ⟨x / 4, h1⟩).2
  intro hcontra
  have hdata : (((b64encode (x :: xs)).map replUrl).filter (fun c => c ≠ '=')) = [] :=
    congrArg String.data hcontra
  rw [ht] at hdata
  simp [List.filter_cons, hkeep] at hdata

/-- **C6, counterexample**: for the empty byte sequence the URL-safe encoding
is the empty string, which `toArrayBuffer` treats as falsy ("cannot decode")
and maps to `undefined` instead of decoding it back to the empty buffer. -/
theorem c6_counterexample :
    arrayBufferToBase64URL [] = "" ∧
    toArrayBuffer (some (.str (arrayBufferToBase64URL []))) = none :=
  ⟨by decide, by decide⟩

/-- **C6 (amended)**: for every *nonempty* byte sequence, `toArrayBuffer`
recovers exactly the bytes from the URL-safe string `arrayBufferToBase64URL`
produces, and already its first decoding stage (URL-safe base64 with padding
normalized to a multiple of 4 with `=`) succeeds; the empty sequence is the
sole exception (see the counterexample). -/
theorem c6_urlsafe_roundtrip (bs : List Nat) (hne : bs ≠ [])
    (h : ∀ x ∈ bs, x < 256) :
    b64decode (padB64 ((arrayBufferToBase64URL bs).data.map replStd)) = some bs ∧
    toArrayBuffer (some (.str (arrayBufferToBase64URL bs))) = some bs := by
  refine ⟨stage1_inverts_base64url bs h, ?_⟩
  obtain ⟨x, xs, rfl⟩ := List.exists_cons_of_ne_nil hne
  have hx : x < 256 := h x (by simp)
  show (if arrayBufferToBase64URL (x :: xs) = "" then none
    else some (toArrayBufferStr (arrayBufferToBase64URL (x :: xs)))) = some (x :: xs)
  rw [if_neg (arrayBufferToBase64URL_ne_empty x xs hx)]
  unfold toArrayBufferStr
  rw [stage1_inverts_base64url _ h]

theorem c6_urlsafe_roundtrip_witness :
    toArrayBuffer (some (.str (arrayBufferToBase64URL [250, 251, 252])))
      = some [250, 251, 252] :=
  (c6_urlsafe_roundtrip [250, 251, 252] (by decide) (by decide)).2

end BioAuth
